import Mathlib

/-!
Verification development for the JARVIS voice/text assistant.

We shallowly embed the core components named by the specification:
the Python string helpers used by the code, the JSON values exchanged
with the language model (`json.loads` / `json.dumps`), the SuperMCP
command parser (`src/jarvis/core/command_parser.py`), the orchestration
loop (`src/jarvis/main.py` and `src/jarvis/llm.py`), the wake-word
detector (`src/jarvis/voice_activation.py`) and the speech-to-text
processing loop (`src/jarvis/voice_input.py`).

Python strings are modelled as `List Char`; the external model boundary
(`ollama.chat`) is modelled as a scripted list of raw replies consumed
one per call; the external tool-execution service is modelled as an
oracle from tool calls to `Except` results, where `Except.error`
represents a raised exception whose `str` is the payload.
-/

namespace Py

/-- The whitespace characters stripped by Python's `str.strip()`
(ASCII fragment, which is all the repository ever feeds it). -/
def isSpaceChar (c : Char) : Bool :=
  c = ' ' || c = '\t' || c = '\n' || c = '\x0d' || c = '\x0b' || c = '\x0c'

/-- Python `str.strip()`. -/
def strip (s : List Char) : List Char :=
  ((s.dropWhile isSpaceChar).reverse.dropWhile isSpaceChar).reverse

/-- Python `str.lower()` (ASCII fragment). -/
def lower (s : List Char) : List Char :=
  s.map Char.toLower

def splitAux (sep : Char) : List Char → List Char → List (List Char)
  | [], cur => [cur.reverse]
  | c :: rest, cur =>
    if c = sep then cur.reverse :: splitAux sep rest []
    else splitAux sep rest (c :: cur)

/-- Python `str.split(sep)` for a one-character separator:
`"a;;b".split(";") = ["a", "", "b"]` and `"".split(";") = [""]`. -/
def split (sep : Char) (s : List Char) : List (List Char) :=
  splitAux sep s []

/-- Python `str.startswith(p)`: first argument is the candidate head. -/
def startsWith : List Char → List Char → Bool
  | [], _ => true
  | _ :: _, [] => false
  | a :: as, b :: bs => a = b && startsWith as bs

/-- Python `p in s` on strings (contiguous substring containment). -/
def containsSeq (w : List Char) : List Char → Bool
  | [] => startsWith w []
  | c :: rest => startsWith w (c :: rest) || containsSeq w rest

end Py

/-- Python values as produced by `json.loads` and consumed by
`json.dumps`: exactly the JSON-representable fragment the repository
exchanges with the model (numbers restricted to integers, which is the
only numeric shape the orchestration layer ever constructs). -/
inductive PyVal : Type where
  | none : PyVal
  | bool : Bool → PyVal
  | int : Int → PyVal
  | str : List Char → PyVal
  | list : List PyVal → PyVal
  | dict : List (List Char × PyVal) → PyVal

/-- Python `d[k] = v` on an insertion-ordered dict: replace in place if
the key exists, otherwise append. -/
def dictInsert (kvs : List (List Char × PyVal)) (k : List Char) (v : PyVal) :
    List (List Char × PyVal) :=
  if kvs.any (fun kv => kv.1 = k) then
    kvs.map (fun kv => if kv.1 = k then (k, v) else kv)
  else
    kvs ++ [(k, v)]

/-- Python `d[k]` (`Option.none` models the `KeyError` / `TypeError`
crash on a missing key or a non-dict receiver). -/
def pyGet : PyVal → List Char → Option PyVal
  | PyVal.dict kvs, k => (kvs.find? (fun kv => kv.1 = k)).map (fun kv => kv.2)
  | _, _ => Option.none

/-- Python `v == "lit"` for a string literal `lit`: false on non-strings. -/
def PyVal.eqStr : PyVal → List Char → Bool
  | PyVal.str s, t => s = t
  | _, _ => false

/-! ### `json.loads` -/

/-- JSON insignificant whitespace. -/
def jsonSkipWs : List Char → List Char
  | c :: rest =>
    if c = ' ' || c = '\t' || c = '\n' || c = '\x0d' then jsonSkipWs rest
    else c :: rest
  | [] => []

def hexVal? (c : Char) : Option Nat :=
  if '0' ≤ c ∧ c ≤ '9' then Option.some (c.toNat - 48)
  else if 'a' ≤ c ∧ c ≤ 'f' then Option.some (c.toNat - 87)
  else if 'A' ≤ c ∧ c ≤ 'F' then Option.some (c.toNat - 55)
  else Option.none

/-- Body of a JSON string after the opening quote, with the escapes the
`json` module accepts; literal control characters are rejected as in the
module's default strict mode. -/
def jsonParseStr : List Char → List Char → Option (List Char × List Char)
  | [], _ => Option.none
  | '"' :: rest, acc => Option.some (acc.reverse, rest)
  | '\\' :: e :: rest, acc =>
    if e = '"' then jsonParseStr rest ('"' :: acc)
    else if e = '\\' then jsonParseStr rest ('\\' :: acc)
    else if e = '/' then jsonParseStr rest ('/' :: acc)
    else if e = 'b' then jsonParseStr rest ('\x08' :: acc)
    else if e = 'f' then jsonParseStr rest ('\x0c' :: acc)
    else if e = 'n' then jsonParseStr rest ('\n' :: acc)
    else if e = 'r' then jsonParseStr rest ('\x0d' :: acc)
    else if e = 't' then jsonParseStr rest ('\t' :: acc)
    else if e = 'u' then
      match rest with
      | h1 :: h2 :: h3 :: h4 :: rest4 =>
        match hexVal? h1, hexVal? h2, hexVal? h3, hexVal? h4 with
        | Option.some a, Option.some b, Option.some c, Option.some d =>
          jsonParseStr rest4 (Char.ofNat (a * 4096 + b * 256 + c * 16 + d) :: acc)
        | _, _, _, _ => Option.none
      | _ => Option.none
    else Option.none
  | c :: rest, acc =>
    if c.toNat < 32 then Option.none else jsonParseStr rest (c :: acc)

def digitsToNat (ds : List Char) : Nat :=
  ds.foldl (fun n c => n * 10 + (c.toNat - 48)) 0

/-- A JSON number restricted to the integer grammar (no leading zeros);
a fraction or exponent makes the whole document unparseable in this
embedding, a shape the repository never produces. -/
def jsonParseNum (s : List Char) : Option (PyVal × List Char) :=
  let (neg, s1) := match s with
    | '-' :: rest => (true, rest)
    | _ => (false, s)
  let ds := s1.takeWhile Char.isDigit
  let rest := s1.dropWhile Char.isDigit
  if ds = [] then Option.none
  else if 2 ≤ ds.length ∧ ds.headI = '0' then Option.none
  else match rest with
    | '.' :: _ => Option.none
    | 'e' :: _ => Option.none
    | 'E' :: _ => Option.none
    | _ =>
      let n : Int := Int.ofNat (digitsToNat ds)
      Option.some (PyVal.int (if neg then -n else n), rest)

mutual

def jsonParseVal (fuel : Nat) (s : List Char) : Option (PyVal × List Char) :=
  match fuel with
  | 0 => Option.none
  | fuel' + 1 =>
    match jsonSkipWs s with
    | 'n' :: 'u' :: 'l' :: 'l' :: rest => Option.some (PyVal.none, rest)
    | 't' :: 'r' :: 'u' :: 'e' :: rest => Option.some (PyVal.bool true, rest)
    | 'f' :: 'a' :: 'l' :: 's' :: 'e' :: rest => Option.some (PyVal.bool false, rest)
    | '"' :: rest =>
      match jsonParseStr rest [] with
      | Option.some (cs, rest1) => Option.some (PyVal.str cs, rest1)
      | Option.none => Option.none
    | '[' :: rest =>
      (match jsonSkipWs rest with
        | ']' :: rest1 => Option.some (PyVal.list [], rest1)
        | r => jsonParseElems fuel' r [])
    | '\x7b' :: rest =>
      (match jsonSkipWs rest with
        | '\x7d' :: rest1 => Option.some (PyVal.dict [], rest1)
        | r => jsonParseMembers fuel' r [])
    | c :: rest =>
      if c = '-' ∨ c.isDigit then jsonParseNum (c :: rest) else Option.none
    | [] => Option.none

def jsonParseElems (fuel : Nat) (s : List Char) (acc : List PyVal) :
    Option (PyVal × List Char) :=
  match fuel with
  | 0 => Option.none
  | fuel' + 1 =>
    match jsonParseVal fuel' s with
    | Option.none => Option.none
    | Option.some (v, rest) =>
      match jsonSkipWs rest with
      | ',' :: rest1 => jsonParseElems fuel' rest1 (acc ++ [v])
      | ']' :: rest1 => Option.some (PyVal.list (acc ++ [v]), rest1)
      | _ => Option.none

def jsonParseMembers (fuel : Nat) (s : List Char) (acc : List (List Char × PyVal)) :
    Option (PyVal × List Char) :=
  match fuel with
  | 0 => Option.none
  | fuel' + 1 =>
    match jsonSkipWs s with
    | '"' :: rest =>
      (match jsonParseStr rest [] with
        | Option.none => Option.none
        | Option.some (k, rest1) =>
          match jsonSkipWs rest1 with
          | ':' :: rest2 =>
            (match jsonParseVal fuel' rest2 with
              | Option.none => Option.none
              | Option.some (v, rest3) =>
                match jsonSkipWs rest3 with
                | ',' :: rest4 => jsonParseMembers fuel' rest4 (dictInsert acc k v)
                | '\x7d' :: rest4 => Option.some (PyVal.dict (dictInsert acc k v), rest4)
                | _ => Option.none)
          | _ => Option.none)
    | _ => Option.none

end

/-- Python `json.loads`: parse one document and require only whitespace
after it. -/
def json_loads (s : List Char) : Option PyVal :=
  match jsonParseVal (2 * s.length + 2) s with
  | Option.some (v, rest) => if jsonSkipWs rest = [] then Option.some v else Option.none
  | Option.none => Option.none

/-! ### `json.dumps` -/

def hexDigitChar (n : Nat) : Char :=
  if n < 10 then Char.ofNat (48 + n) else Char.ofNat (87 + n)

def hex4 (n : Nat) : List Char :=
  [hexDigitChar (n / 4096 % 16), hexDigitChar (n / 256 % 16),
   hexDigitChar (n / 16 % 16), hexDigitChar (n % 16)]

/-- One character of a dumped JSON string under the module's default
`ensure_ascii=True` escaping. -/
def jsonDumpChar (c : Char) : List Char :=
  if c = '"' then ['\\', '"']
  else if c = '\\' then ['\\', '\\']
  else if c = '\n' then ['\\', 'n']
  else if c = '\t' then ['\\', 't']
  else if c = '\x0d' then ['\\', 'r']
  else if c = '\x08' then ['\\', 'b']
  else if c = '\x0c' then ['\\', 'f']
  else if c.toNat < 32 ∨ 126 < c.toNat then
    if c.toNat < 65536 then '\\' :: 'u' :: hex4 c.toNat
    else
      let v := c.toNat - 65536
      ('\\' :: 'u' :: hex4 (55296 + v / 1024)) ++ ('\\' :: 'u' :: hex4 (56320 + v % 1024))
  else [c]

def jsonDumpStr (s : List Char) : List Char :=
  '"' :: (s.map jsonDumpChar).flatten ++ ['"']

def intDigits (i : Int) : List Char :=
  if i < 0 then '-' :: Nat.toDigits 10 i.natAbs else Nat.toDigits 10 i.natAbs

/-- `", "`-join of already-dumped pieces (the module's default item
separator). -/
def joinComma : List (List Char) → List Char
  | [] => []
  | [x] => x
  | x :: y :: rest => x ++ ',' :: ' ' :: joinComma (y :: rest)

mutual

/-- Python `json.dumps` with its default separators and escaping. -/
def jsonDumpVal : PyVal → List Char
  | PyVal.none => ['n', 'u', 'l', 'l']
  | PyVal.bool true => ['t', 'r', 'u', 'e']
  | PyVal.bool false => ['f', 'a', 'l', 's', 'e']
  | PyVal.int i => intDigits i
  | PyVal.str s => jsonDumpStr s
  | PyVal.list xs => '[' :: joinComma (jsonDumpList xs) ++ [']']
  | PyVal.dict kvs => '\x7b' :: joinComma (jsonDumpDict kvs) ++ ['\x7d']

def jsonDumpList : List PyVal → List (List Char)
  | [] => []
  | x :: xs => jsonDumpVal x :: jsonDumpList xs

def jsonDumpDict : List (List Char × PyVal) → List (List Char)
  | [] => []
  | (k, v) :: kvs => (jsonDumpStr k ++ ':' :: ' ' :: jsonDumpVal v) :: jsonDumpDict kvs

end

def json_dumps (v : PyVal) : List Char :=
  jsonDumpVal v

/-! ### The external tool-execution boundary -/

/-- The four logical operations the command layer can request from the
SuperMCP wrapper.  `call_server_tool` records the argument payload the
code actually passes (always the empty dict in the current design). -/
inductive ToolCall : Type where
  | reload_servers : ToolCall
  | list_servers : ToolCall
  | inspect_server : List Char → ToolCall
  | call_server_tool : List Char → List Char → List (List Char × PyVal) → ToolCall

/-- The tool-execution service as an oracle: `Except.error e` models the
wrapper raising an exception whose `str` is `e`. -/
def ToolService : Type := ToolCall → Except (List Char) PyVal

/-- The structured error objects the command layer builds. -/
def errObj (msg : List Char) : PyVal :=
  PyVal.dict [("error".toList, PyVal.str msg)]

/-! ### `SuperMCPCommandParser` (src/jarvis/core/command_parser.py) -/

namespace SuperMCPCommandParser

/-- One step of `_parse_command_arguments`' state machine over
`(parts, current_part, brace_count)`. -/
def pcaStep (st : List (List Char) × List Char × Int) (c : Char) :
    List (List Char) × List Char × Int :=
  let (parts, cur, depth) := st
  if c = '\x7b' then (parts, cur ++ [c], depth + 1)
  else if c = '\x7d' then (parts, cur ++ [c], depth - 1)
  else if c = ',' ∧ depth = 0 then (parts ++ [Py.strip cur], [], depth)
  else (parts, cur ++ [c], depth)

/-- `_parse_command_arguments`: split an argument list at commas that
occur at brace depth zero, stripping each part; a trailing empty raw
part is dropped. -/
def parse_command_arguments (content : List Char) : List (List Char) :=
  let (parts, cur, _) := content.foldl pcaStep ([], [], 0)
  if cur ≠ [] then parts ++ [Py.strip cur] else parts

/-- `_parse_and_execute_command`, instrumented to also return the list
of service invocations it performed.  The surrounding `try` converts a
service exception into the per-command error object. -/
def parse_and_execute_command (svc : ToolService) (command : List Char) :
    PyVal × List ToolCall :=
  if command = "reload_servers()".toList then
    match svc ToolCall.reload_servers with
    | Except.ok v => (v, [ToolCall.reload_servers])
    | Except.error e =>
      (errObj ("Command execution failed: ".toList ++ e), [ToolCall.reload_servers])
  else if command = "list_servers()".toList then
    match svc ToolCall.list_servers with
    | Except.ok v => (v, [ToolCall.list_servers])
    | Except.error e =>
      (errObj ("Command execution failed: ".toList ++ e), [ToolCall.list_servers])
  else if Py.startsWith "inspect_server(".toList command then
    -- `_handle_inspect_server`: `server_name = command[16:-1]`
    let server_name := (command.drop 16).dropLast
    match svc (ToolCall.inspect_server server_name) with
    | Except.ok v => (v, [ToolCall.inspect_server server_name])
    | Except.error e =>
      (errObj ("Command execution failed: ".toList ++ e), [ToolCall.inspect_server server_name])
  else if Py.startsWith "call_server_tool(".toList command then
    -- `_handle_call_server_tool`: `content = command[17:-1]`
    let content := (command.drop 17).dropLast
    let parts := parse_command_arguments content
    match parts with
    | server_name :: tool_name :: _ :: _ =>
      (match svc (ToolCall.call_server_tool server_name tool_name []) with
        | Except.ok v => (v, [ToolCall.call_server_tool server_name tool_name []])
        | Except.error e =>
          (errObj ("Failed to parse call_server_tool: ".toList ++ e),
           [ToolCall.call_server_tool server_name tool_name []]))
    | _ => (errObj ("Invalid call_server_tool format: ".toList ++ command), [])
  else
    (errObj ("Unknown command: ".toList ++ command), [])

/-- The semicolon split / strip / drop-empty preprocessing shared by
`execute_command_sequence` and `_execute_supermcp_commands`. -/
def cleanCommands (command_sequence : List Char) : List (List Char) :=
  ((Py.split ';' command_sequence).map Py.strip).filter (fun c => ¬ c = [])

/-- The per-command loop body of `execute_command_sequence`. -/
def execLoop (svc : ToolService) : List (List Char) → List PyVal × List ToolCall
  | [] => ([], [])
  | c :: cs =>
    let (r, t) := parse_and_execute_command svc c
    let (rs, ts) := execLoop svc cs
    (r :: rs, t ++ ts)

/-- `execute_command_sequence`, instrumented with the service
invocation trace. -/
def execute_command_sequence (svc : ToolService) (command_sequence : List Char) :
    PyVal × List ToolCall :=
  let (rs, ts) := execLoop svc (cleanCommands command_sequence)
  (PyVal.dict [("success".toList, PyVal.bool true), ("results".toList, PyVal.list rs)], ts)

end SuperMCPCommandParser

/-- The specification's reading of the argument splitter, as a
reference definition: cut the content exactly at the commas whose
running brace depth is zero (the comma itself separating the raw
segments). -/
def specTopLevelSplit : List Char → Int → List (List Char)
  | [], _ => [[]]
  | c :: rest, depth =>
    if c = ',' ∧ depth = 0 then [] :: specTopLevelSplit rest depth
    else
      let d := if c = '\x7b' then depth + 1 else if c = '\x7d' then depth - 1 else depth
      match specTopLevelSplit rest d with
      | [] => [[c]]
      | seg :: segs => (c :: seg) :: segs

/-- Drop the trailing raw segment when it is empty — the reference
counterpart of the code's `if current_part:` guard before the final
append. -/
def dropTrailingEmptyArg (raws : List (List Char)) : List (List Char) :=
  if raws.getLast? = Option.some [] then raws.dropLast else raws

/-! ### The orchestration loop (src/jarvis/llm.py and src/jarvis/main.py) -/

structure Message : Type where
  role : List Char
  content : List Char
deriving DecidableEq

/-- The mutable state of the `LLM` object: the fixed `default_chat`
(single system message built at construction) and the growing
`chat_history`. -/
structure LLMState : Type where
  default_chat : List Message
  chat_history : List Message
deriving DecidableEq

def userMsg (content : List Char) : Message :=
  { role := "user".toList, content := content }

/-- `self.chat_history.append({'role': 'user', 'content': prompt})`. -/
def pushUser (st : LLMState) (prompt : List Char) : LLMState :=
  { st with chat_history := st.chat_history ++ [userMsg prompt] }

/-- The fixed message `LLM.ask` re-invokes the model with after a
`JSONDecodeError` (the literal string the code passes). -/
def correctiveMessage : List Char :=
  "The JSON text you provided".toList

/-- `LLM.ask`: append the prompt as a user message, consume the next
scripted model reply, return its `json.loads` if it parses, otherwise
recurse with the fixed corrective message.  `Option.none` means the
scripted replies ran out before a parseable one arrived (the Python
loop would still be running). -/
def LLM.ask : LLMState → List Char → List (List Char) →
    Option (PyVal × LLMState × List (List Char))
  | _, _, [] => Option.none
  | st, prompt, r :: rs =>
    let st1 := pushUser st prompt
    match json_loads r with
    | Option.some v => Option.some (v, st1, rs)
    | Option.none => LLM.ask st1 correctiveMessage rs

/-- `LLM.reset_history`. -/
def LLM.reset_history (st : LLMState) : LLMState :=
  { st with chat_history := st.default_chat }

namespace Jarvis

/-- `Jarvis._parse_and_execute_command` (src/jarvis/main.py): the same
algorithm as the core command parser, with the `call_server_tool`
argument parsing inlined. -/
def parse_and_execute_command (svc : ToolService) (command : List Char) :
    PyVal × List ToolCall :=
  if command = "reload_servers()".toList then
    match svc ToolCall.reload_servers with
    | Except.ok v => (v, [ToolCall.reload_servers])
    | Except.error e =>
      (errObj ("Command execution failed: ".toList ++ e), [ToolCall.reload_servers])
  else if command = "list_servers()".toList then
    match svc ToolCall.list_servers with
    | Except.ok v => (v, [ToolCall.list_servers])
    | Except.error e =>
      (errObj ("Command execution failed: ".toList ++ e), [ToolCall.list_servers])
  else if Py.startsWith "inspect_server(".toList command then
    -- `server_name = command[16:-1]`
    let server_name := (command.drop 16).dropLast
    match svc (ToolCall.inspect_server server_name) with
    | Except.ok v => (v, [ToolCall.inspect_server server_name])
    | Except.error e =>
      (errObj ("Command execution failed: ".toList ++ e), [ToolCall.inspect_server server_name])
  else if Py.startsWith "call_server_tool(".toList command then
    let content := (command.drop 17).dropLast
    let parts := SuperMCPCommandParser.parse_command_arguments content
    match parts with
    | server_name :: tool_name :: _ :: _ =>
      (match svc (ToolCall.call_server_tool server_name tool_name []) with
        | Except.ok v => (v, [ToolCall.call_server_tool server_name tool_name []])
        | Except.error e =>
          (errObj ("Failed to parse call_server_tool: ".toList ++ e),
           [ToolCall.call_server_tool server_name tool_name []]))
    | _ => (errObj ("Invalid call_server_tool format: ".toList ++ command), [])
  else
    (errObj ("Unknown command: ".toList ++ command), [])

def execLoop (svc : ToolService) : List (List Char) → List PyVal × List ToolCall
  | [] => ([], [])
  | c :: cs =>
    let (r, t) := parse_and_execute_command svc c
    let (rs, ts) := execLoop svc cs
    (r :: rs, t ++ ts)

/-- `Jarvis._execute_supermcp_commands`. -/
def execute_supermcp_commands (svc : ToolService) (command_sequence : List Char) :
    PyVal × List ToolCall :=
  let (rs, ts) := execLoop svc (SuperMCPCommandParser.cleanCommands command_sequence)
  (PyVal.dict [("success".toList, PyVal.bool true), ("results".toList, PyVal.list rs)], ts)

/-- What one completed `Jarvis.ask` run produced, instrumented with the
chat history at loop exit (before `reset_history`) and the command
sequences handed to `_execute_supermcp_commands`. -/
structure AskRun : Type where
  response : PyVal
  exit_history : List Message
  state : LLMState
  remaining : List (List Char)
  parser_calls : List (List Char)

/-- The `while response['user_request'] != "Conversation"` loop of
`Jarvis.ask`.  `fuel` bounds the number of loop iterations we observe;
`Option.none` covers running out of fuel or scripted replies, the
`KeyError` crash on a reply without the expected keys, and the
(unmodelled) dynamic error when a `SuperMCP` reply's `output` is not a
string. -/
def askLoop (svc : ToolService) :
    Nat → PyVal → LLMState → List (List Char) → List (List Char) → Option AskRun
  | 0, _, _, _, _ => Option.none
  | fuel + 1, response, st, replies, calls =>
    match pyGet response "user_request".toList with
    | Option.none => Option.none
    | Option.some ur =>
      if ur.eqStr "Conversation".toList then
        Option.some
          { response := response
            exit_history := st.chat_history
            state := LLM.reset_history st
            remaining := replies
            parser_calls := calls }
      else if ur.eqStr "SuperMCP".toList then
        match pyGet response "output".toList with
        | Option.none => Option.none
        | Option.some out =>
          match out with
          | PyVal.str cmd =>
            let supermcp_output := (execute_supermcp_commands svc cmd).1
            (match LLM.ask st (json_dumps supermcp_output) replies with
              | Option.none => Option.none
              | Option.some (v, st1, rs) => askLoop svc fuel v st1 rs (calls ++ [cmd]))
          | _ => Option.none
      else
        -- neither tag: the Python loop spins forever without progress
        askLoop svc fuel response st replies calls

/-- `Jarvis.ask`: one model call on the prompt, then the response loop,
then the unconditional `reset_history` (folded into the loop exit). -/
def ask (svc : ToolService) (fuel : Nat) (st : LLMState) (prompt : List Char)
    (replies : List (List Char)) : Option AskRun :=
  match LLM.ask st prompt replies with
  | Option.none => Option.none
  | Option.some (v, st1, rs) => askLoop svc fuel v st1 rs []

end Jarvis

/-! ### `VoiceActivation` (src/jarvis/voice_activation.py) -/

/-- One transcript event as seen by the wake-word scan: the raw text
from the recognizer (the loop treats completed and provisional results
identically for detection) and the `time.time()` value at the scan. -/
structure TranscriptEv : Type where
  text : List Char
  time : ℚ
deriving DecidableEq

/-- The queued activation record built by
`_handle_wake_word_detection`. -/
structure Activation : Type where
  wake_word : List Char
  full_text : List Char
  timestamp : ℚ
  count : Nat
deriving DecidableEq

/-- The detection-relevant state of a `VoiceActivation` object. -/
structure VAState : Type where
  wake_words : List (List Char)
  last_detection_time : ℚ
  detection_count : Nat
deriving DecidableEq

/-- Constructor state: wake words lower-cased, counter and last
detection time zeroed. -/
def VAState.init (wake_words : List (List Char)) : VAState :=
  { wake_words := wake_words.map Py.lower
    last_detection_time := 0
    detection_count := 0 }

/-- `_check_for_wake_word` followed by `_handle_wake_word_detection`:
reject inside the 2.0 s debounce window, otherwise fire on the first
configured phrase contained in the text. -/
def check_for_wake_word (st : VAState) (text : List Char) (now : ℚ) :
    VAState × Option Activation :=
  if now - st.last_detection_time < 2 then (st, Option.none)
  else
    match st.wake_words.find? (fun w => Py.containsSeq w text) with
    | Option.none => (st, Option.none)
    | Option.some w =>
      ({ st with last_detection_time := now, detection_count := st.detection_count + 1 },
       Option.some
         { wake_word := w
           full_text := text
           timestamp := now
           count := st.detection_count + 1 })

/-- One iteration of `_listen_loop` on a transcript event: lower-case
and strip the text, scan it only if non-empty (both the completed and
the provisional branch do exactly this). -/
def listenStep (st : VAState) (ev : TranscriptEv) : VAState × Option Activation :=
  let t := Py.strip (Py.lower ev.text)
  if t = [] then (st, Option.none) else check_for_wake_word st t ev.time

/-- Run the scan over a whole event stream, collecting the queued
activations in order. -/
def processEvents (st : VAState) : List TranscriptEv → VAState × List Activation
  | [] => (st, [])
  | e :: es =>
    let (st1, oa) := listenStep st e
    let (st2, acts) := processEvents st1 es
    (st2, oa.toList ++ acts)

/-- An event whose lower-cased (and stripped) text contains one of the
configured phrases. -/
def eventMatches (wake_words : List (List Char)) (ev : TranscriptEv) : Prop :=
  ∃ w ∈ wake_words, Py.containsSeq w (Py.strip (Py.lower ev.text)) = true

/-! ### `SpeechToText._process_loop` (src/jarvis/voice_input.py) -/

/-- What the streaming recognizer reported for one audio chunk: a
completed utterance (`AcceptWaveform` true, with the `Result` text) or
a provisional one (with the `PartialResult` text). -/
inductive RecogResult : Type where
  | done : List Char → RecogResult
  | part : List Char → RecogResult
deriving DecidableEq

/-- The accumulation state of `_process_loop`. -/
structure STTState : Type where
  last_speech_time : Option ℚ
  last_emitted_text : List Char
  current_phrase : List Char
deriving DecidableEq

/-- The state `start()` begins from. -/
def STTState.init : STTState :=
  { last_speech_time := Option.none, last_emitted_text := [], current_phrase := [] }

/-- One iteration of `_process_loop`: handle the recognizer's result
for this chunk, then run the silence-timeout check, emitting
`(text, is final)` events.  `now` is the `datetime.utcnow()` of the
iteration. -/
def processIter (silence_timeout : ℚ) (st : STTState) (res : RecogResult) (now : ℚ) :
    STTState × List (List Char × Bool) :=
  let (st1, out1) :=
    match res with
    | RecogResult.done raw =>
      let text := Py.strip raw
      if text = [] then (st, ([] : List (List Char × Bool)))
      else
        ({ last_speech_time := Option.some now
           last_emitted_text := text
           current_phrase := text }, [(text, true)])
    | RecogResult.part raw =>
      let t := Py.strip raw
      if t = [] ∨ t = st.last_emitted_text then (st, [])
      else
        ({ st with last_speech_time := Option.some now, last_emitted_text := t },
         [(t, false)])
  match st1.last_speech_time with
  | Option.none => (st1, out1)
  | Option.some t0 =>
    if silence_timeout < now - t0 then
      if ¬ st1.current_phrase = [] ∧ ¬ st1.current_phrase = st1.last_emitted_text then
        ({ last_speech_time := Option.none
           last_emitted_text := st1.current_phrase
           current_phrase := [] },
         out1 ++ [(st1.current_phrase, true)])
      else
        ({ st1 with last_speech_time := Option.none, current_phrase := [] }, out1)
    else (st1, out1)

/-- Run `_process_loop` over a scripted sequence of recognizer results
with their iteration times, collecting every emitted event. -/
def processLoop (silence_timeout : ℚ) (st : STTState) :
    List (RecogResult × ℚ) → STTState × List (List Char × Bool)
  | [] => (st, [])
  | (res, now) :: rest =>
    let (st1, out1) := processIter silence_timeout st res now
    let (st2, out2) := processLoop silence_timeout st1 rest
    (st2, out1 ++ out2)

/-! ### Concrete fixtures used by the witnesses -/

/-- A tool service that answers every call successfully. -/
def svcOkW : ToolService := fun _ => Except.ok (PyVal.str "ok".toList)

/-- A tool service that raises on every call. -/
def svcErrW : ToolService := fun _ => Except.error "boom".toList

def sysMsgW : Message := { role := "system".toList, content := "preamble".toList }

/-- A fresh LLM state: history is exactly the default system message. -/
def stW : LLMState := { default_chat := [sysMsgW], chat_history := [sysMsgW] }

/-- An LLM state carrying accumulated context from earlier turns. -/
def stPriorW : LLMState :=
  { default_chat := [sysMsgW]
    chat_history := [sysMsgW, userMsg "earlier question".toList,
                     userMsg "earlier result".toList] }

/-- A model reply requesting tool execution. -/
def replyToolW : List Char :=
  "\x7b\"user_request\": \"SuperMCP\", \"output\": \"list_servers()\"\x7d".toList

/-- A model reply ending the loop conversationally. -/
def replyConvW : List Char :=
  "\x7b\"user_request\": \"Conversation\", \"output\": \"done\"\x7d".toList

/-- A reply that is valid JSON but whose `user_request` value is outside
the two legal enum values. -/
def replyBananaW : List Char :=
  "\x7b\"user_request\": \"Banana\", \"output\": \"x\"\x7d".toList

/-- A reply that is not JSON at all. -/
def replyBadW : List Char := "not json".toList

def vaInitW : VAState := VAState.init ["Jarvis".toList]

def evsW : List TranscriptEv :=
  [{ text := "hey JARVIS".toList, time := 2 },
   { text := "jarvis again".toList, time := 3 },
   { text := " jarvis ".toList, time := 5 }]

/-! ### Lemmas about `LLM.ask` -/

theorem llm_ask_parsed (st : LLMState) (prompt r : List Char) (rs : List (List Char))
    (v : PyVal) (h : json_loads r = Option.some v) :
    LLM.ask st prompt (r :: rs) = Option.some (v, pushUser st prompt, rs) := by
  simp [LLM.ask, h]

theorem llm_ask_unparsed (st : LLMState) (prompt r : List Char) (rs : List (List Char))
    (h : json_loads r = Option.none) :
    LLM.ask st prompt (r :: rs) = LLM.ask (pushUser st prompt) correctiveMessage rs := by
  simp [LLM.ask, h]

theorem llm_ask_retry_chain (good : List Char) (v : PyVal) (rs : List (List Char))
    (hg : json_loads good = Option.some v) :
    ∀ (bads : List (List Char)) (st : LLMState) (prompt : List Char),
      (∀ b ∈ bads, json_loads b = Option.none) →
      LLM.ask st prompt (bads ++ good :: rs) =
        Option.some (v,
          { default_chat := st.default_chat
            chat_history := st.chat_history ++
              userMsg prompt :: bads.map (fun _ => userMsg correctiveMessage) }, rs) := by
  intro bads
  induction bads with
  | nil =>
    intro st prompt _
    simp [LLM.ask, hg, pushUser]
  | cons b bads ih =>
    intro st prompt hb
    have h1 : json_loads b = Option.none := hb b (by simp)
    have h2 : ∀ x ∈ bads, json_loads x = Option.none := fun x hx => hb x (by simp [hx])
    rw [List.cons_append, llm_ask_unparsed _ _ _ _ h1, ih (pushUser st prompt) correctiveMessage h2]
    simp [pushUser]

/-- C2 (counterexample): the model reply
`{"user_request": "Banana", "output": "x"}` is valid JSON whose
`user_request` is outside the legal enum, so under the claim it must
trigger the corrective retry; the code instead returns the parsed
value to the loop, consuming only this one reply and appending only
the original prompt (no corrective message, no further model call). -/
theorem c2_counterexample_out_of_enum_no_retry :
    LLM.ask stW "hi".toList [replyBananaW] =
      Option.some
        (PyVal.dict [("user_request".toList, PyVal.str "Banana".toList),
                     ("output".toList, PyVal.str "x".toList)],
         pushUser stW "hi".toList, []) := by
  rfl

/-- C2 (amended): the corrective-retry path fires if and only if the
reply fails to parse as JSON at all.  A reply that `json.loads`
accepts — whatever its keys — is returned to the loop after a single
model call with only the prompt appended; a reply that `json.loads`
rejects leads to one further model call carrying the fixed corrective
message. -/
theorem c2_retry_iff_json_parse_failure (st : LLMState) (prompt r r2 : List Char)
    (rs : List (List Char)) :
    (∀ v, json_loads r = Option.some v →
      LLM.ask st prompt (r :: rs) = Option.some (v, pushUser st prompt, rs)) ∧
    (json_loads r = Option.none → ∀ v2, json_loads r2 = Option.some v2 →
      LLM.ask st prompt (r :: r2 :: rs) =
        Option.some (v2, pushUser (pushUser st prompt) correctiveMessage, rs)) := by
  constructor
  · intro v h
    exact llm_ask_parsed st prompt r rs v h
  · intro h v2 h2
    rw [llm_ask_unparsed st prompt r (r2 :: rs) h]
    exact llm_ask_parsed _ _ _ _ _ h2

theorem c2_retry_iff_json_parse_failure_witness :
    LLM.ask stW "hi".toList [replyConvW] =
      Option.some
        (PyVal.dict [("user_request".toList, PyVal.str "Conversation".toList),
                     ("output".toList, PyVal.str "done".toList)],
         pushUser stW "hi".toList, []) ∧
    LLM.ask stW "hi".toList [replyBadW, replyConvW] =
      Option.some
        (PyVal.dict [("user_request".toList, PyVal.str "Conversation".toList),
                     ("output".toList, PyVal.str "done".toList)],
         pushUser (pushUser stW "hi".toList) correctiveMessage, []) := by
  refine ⟨(c2_retry_iff_json_parse_failure stW "hi".toList replyConvW replyConvW []).1 _ (by rfl),
          (c2_retry_iff_json_parse_failure stW "hi".toList replyBadW replyConvW []).2 (by rfl) _ (by rfl)⟩

/-- C3: on a malformed first reply followed by a valid one, `ask()`
makes exactly one additional model call whose appended user message is
the fixed corrective instruction (not the original prompt), and then
returns the parse of the second reply; in general, any number of
consecutive malformed replies is retried unconditionally — one
corrective message appended per failure, with no attempt cap. -/
theorem c3_corrective_retry_unbounded (st : LLMState) (prompt good : List Char)
    (v : PyVal) (rs : List (List Char)) (hg : json_loads good = Option.some v) :
    (∀ r1, json_loads r1 = Option.none →
      LLM.ask st prompt (r1 :: good :: rs) =
        Option.some (v,
          { default_chat := st.default_chat
            chat_history := st.chat_history ++ [userMsg prompt, userMsg correctiveMessage] },
          rs)) ∧
    (∀ bads, (∀ b ∈ bads, json_loads b = Option.none) →
      LLM.ask st prompt (bads ++ good :: rs) =
        Option.some (v,
          { default_chat := st.default_chat
            chat_history := st.chat_history ++
              userMsg prompt :: bads.map (fun _ => userMsg correctiveMessage) },
          rs)) := by
  constructor
  · intro r1 h1
    have := llm_ask_retry_chain good v rs hg [r1] st prompt (by simpa using h1)
    simpa using this
  · intro bads hb
    exact llm_ask_retry_chain good v rs hg bads st prompt hb

theorem c3_corrective_retry_unbounded_witness :
    LLM.ask stW "hi".toList [replyBadW, replyConvW] =
      Option.some
        (PyVal.dict [("user_request".toList, PyVal.str "Conversation".toList),
                     ("output".toList, PyVal.str "done".toList)],
         { default_chat := [sysMsgW]
           chat_history := [sysMsgW] ++ [userMsg "hi".toList, userMsg correctiveMessage] },
         []) ∧
    LLM.ask stW "hi".toList ([replyBadW, replyBadW, replyBadW] ++ replyConvW :: []) =
      Option.some
        (PyVal.dict [("user_request".toList, PyVal.str "Conversation".toList),
                     ("output".toList, PyVal.str "done".toList)],
         { default_chat := [sysMsgW]
           chat_history := [sysMsgW] ++ userMsg "hi".toList ::
             ([replyBadW, replyBadW, replyBadW].map (fun _ => userMsg correctiveMessage)) },
         []) := by
  refine ⟨(c3_corrective_retry_unbounded stW "hi".toList replyConvW _ [] (by rfl)).1 replyBadW (by rfl),
          (c3_corrective_retry_unbounded stW "hi".toList replyConvW _ [] (by rfl)).2
            [replyBadW, replyBadW, replyBadW] ?_⟩
  intro b hb
  simp only [List.mem_cons, List.not_mem_nil, or_false] at hb
  rcases hb with rfl | rfl | rfl <;> rfl

/-- C6: `inspect_server(` is 15 characters long but both command
dispatchers slice `command[16:-1]`, so for the command
`inspect_server(Foo)` the service's inspect operation is invoked with
`oo` — the first character of the server name is dropped, contradicting
the code's own comment (and the claim) that exactly the text between
the prefix and the closing parenthesis is passed.  The invocation trace
is independent of how the service answers. -/
theorem c6_inspect_server_drops_first_char :
    (SuperMCPCommandParser.parse_and_execute_command svcOkW
        "inspect_server(Foo)".toList).2 = [ToolCall.inspect_server "oo".toList] ∧
    (SuperMCPCommandParser.parse_and_execute_command svcErrW
        "inspect_server(Foo)".toList).2 = [ToolCall.inspect_server "oo".toList] ∧
    (Jarvis.parse_and_execute_command svcOkW
        "inspect_server(Foo)".toList).2 = [ToolCall.inspect_server "oo".toList] ∧
    (Jarvis.parse_and_execute_command svcErrW
        "inspect_server(Foo)".toList).2 = [ToolCall.inspect_server "oo".toList] ∧
    "oo".toList ≠ "Foo".toList :=
  ⟨rfl, rfl, rfl, rfl, by decide⟩

/-- C8: a capture session fed only provisional (partial) recognizer
results — text `hello` at time 0, then the same text again at time 10,
far beyond the 1.0 s silence timeout — emits no final event at all:
`current_phrase` is populated only by recognizer-final results, so the
silence watchdog merely resets the accumulation state, contradicting
the claim that text seen only in partial events is force-emitted as
final. -/
theorem c8_silence_watchdog_emits_no_final :
    processLoop 1 STTState.init
        [(RecogResult.part "hello".toList, 0), (RecogResult.part "hello".toList, 10)] =
      ({ last_speech_time := Option.none
         last_emitted_text := "hello".toList
         current_phrase := [] },
       [("hello".toList, false)]) ∧
    ((processLoop 1 STTState.init
        [(RecogResult.part "hello".toList, 0),
         (RecogResult.part "hello".toList, 10)]).2.filter (fun p => p.2)) = [] := by
  have step1 : processIter 1 STTState.init (RecogResult.part "hello".toList) 0 =
      ({ last_speech_time := Option.some 0, last_emitted_text := "hello".toList,
         current_phrase := [] }, [("hello".toList, false)]) := by
    simp only [processIter, STTState.init,
      show Py.strip "hello".toList = "hello".toList from rfl]
    simp only [show (("hello".toList : List Char) = []) = False from by simp, false_or, or_self,
      if_false, ite_false]
    norm_num
  have step2 : processIter 1
      { last_speech_time := Option.some 0, last_emitted_text := "hello".toList,
        current_phrase := [] } (RecogResult.part "hello".toList) 10 =
      ({ last_speech_time := Option.none, last_emitted_text := "hello".toList,
         current_phrase := [] }, []) := by
    simp only [processIter, show Py.strip "hello".toList = "hello".toList from rfl]
    simp only [show (("hello".toList : List Char) = "hello".toList) = True from by simp,
      or_true, if_true, ite_true]
    norm_num
  have hrun : processLoop 1 STTState.init
      [(RecogResult.part "hello".toList, 0), (RecogResult.part "hello".toList, 10)] =
      ({ last_speech_time := Option.none
         last_emitted_text := "hello".toList
         current_phrase := [] },
       [("hello".toList, false)]) := by
    simp only [processLoop, step1, step2, List.append_nil, List.nil_append]
  exact ⟨hrun, by rw [hrun]; rfl⟩

/-- C1: when the first model reply is tool-tagged (`SuperMCP`, the
code's name for the spec's `Tool`) with command string `cmd` and the
second reply is `Conversation`-tagged, `Jarvis.ask` hands `cmd` to the
command executor exactly once, appends the original prompt once and
then the `json.dumps` of the executor's aggregate result as the next
user message, stops after the second model call (`remaining = rest`),
and returns the second reply. -/
theorem c1_tool_then_conversation (svc : ToolService) (st : LLMState)
    (prompt r1 r2 : List Char) (rest : List (List Char)) (k : Nat)
    (v1 v2 : PyVal) (cmd : List Char)
    (h1 : json_loads r1 = Option.some v1)
    (hur1 : pyGet v1 "user_request".toList = Option.some (PyVal.str "SuperMCP".toList))
    (hout1 : pyGet v1 "output".toList = Option.some (PyVal.str cmd))
    (h2 : json_loads r2 = Option.some v2)
    (hur2 : pyGet v2 "user_request".toList = Option.some (PyVal.str "Conversation".toList)) :
    Jarvis.ask svc (k + 2) st prompt (r1 :: r2 :: rest) =
      Option.some
        { response := v2
          exit_history := st.chat_history ++
            [userMsg prompt,
             userMsg (json_dumps (Jarvis.execute_supermcp_commands svc cmd).1)]
          state := { default_chat := st.default_chat, chat_history := st.default_chat }
          remaining := rest
          parser_calls := [cmd] } := by
  have e1 : LLM.ask st prompt (r1 :: r2 :: rest) =
      Option.some (v1, pushUser st prompt, r2 :: rest) := llm_ask_parsed _ _ _ _ _ h1
  have e2 : LLM.ask (pushUser st prompt)
      (json_dumps (Jarvis.execute_supermcp_commands svc cmd).1) (r2 :: rest) =
      Option.some (v2,
        pushUser (pushUser st prompt) (json_dumps (Jarvis.execute_supermcp_commands svc cmd).1),
        rest) := llm_ask_parsed _ _ _ _ _ h2
  have hb1 : PyVal.eqStr (PyVal.str "SuperMCP".toList) "Conversation".toList = false := by decide
  have hb2 : PyVal.eqStr (PyVal.str "SuperMCP".toList) "SuperMCP".toList = true := by decide
  have hb3 : PyVal.eqStr (PyVal.str "Conversation".toList) "Conversation".toList = true := by decide
  simp only [Jarvis.ask, e1, Jarvis.askLoop, hur1, hur2, hout1, hb1, hb2, hb3, e2,
    Bool.false_eq_true, if_false, if_true, ite_true, ite_false, LLM.reset_history]
  simp [pushUser, List.append_assoc]

theorem c1_tool_then_conversation_witness :
    Jarvis.ask svcOkW 2 stW "hi".toList [replyToolW, replyConvW] =
      Option.some
        { response := PyVal.dict [("user_request".toList, PyVal.str "Conversation".toList),
                                  ("output".toList, PyVal.str "done".toList)]
          exit_history := stW.chat_history ++
            [userMsg "hi".toList,
             userMsg (json_dumps
               (Jarvis.execute_supermcp_commands svcOkW "list_servers()".toList).1)]
          state := { default_chat := stW.default_chat, chat_history := stW.default_chat }
          remaining := []
          parser_calls := ["list_servers()".toList] } :=
  c1_tool_then_conversation svcOkW stW "hi".toList replyToolW replyConvW [] 0
    (PyVal.dict [("user_request".toList, PyVal.str "SuperMCP".toList),
                 ("output".toList, PyVal.str "list_servers()".toList)])
    (PyVal.dict [("user_request".toList, PyVal.str "Conversation".toList),
                 ("output".toList, PyVal.str "done".toList)])
    "list_servers()".toList rfl rfl rfl rfl rfl

/-- C9: `Jarvis.ask` calls `reset_history()` unconditionally after a
completed turn — the embedding reads no configuration flag because the
code reads none — so the post-turn session is always exactly
`default_chat`, even when the history-reset flag would be unset and the
accumulated messages should have been preserved. -/
theorem c9_reset_history_unconditional (svc : ToolService) (k : Nat) (st : LLMState)
    (prompt r : List Char) (rest : List (List Char)) (v : PyVal)
    (h : json_loads r = Option.some v)
    (hur : pyGet v "user_request".toList = Option.some (PyVal.str "Conversation".toList)) :
    Jarvis.ask svc (k + 1) st prompt (r :: rest) =
      Option.some
        { response := v
          exit_history := st.chat_history ++ [userMsg prompt]
          state := { default_chat := st.default_chat, chat_history := st.default_chat }
          remaining := rest
          parser_calls := [] } := by
  have e1 : LLM.ask st prompt (r :: rest) =
      Option.some (v, pushUser st prompt, rest) := llm_ask_parsed _ _ _ _ _ h
  have hb : PyVal.eqStr (PyVal.str "Conversation".toList) "Conversation".toList = true := by
    decide
  simp only [Jarvis.ask, e1, Jarvis.askLoop, hur, hb, if_true, ite_true, LLM.reset_history]
  simp [pushUser]

theorem c9_reset_history_unconditional_witness :
    Jarvis.ask svcOkW 1 stPriorW "hi".toList [replyConvW] =
      Option.some
        { response := PyVal.dict [("user_request".toList, PyVal.str "Conversation".toList),
                                  ("output".toList, PyVal.str "done".toList)]
          exit_history := stPriorW.chat_history ++ [userMsg "hi".toList]
          state := { default_chat := [sysMsgW], chat_history := [sysMsgW] }
          remaining := []
          parser_calls := [] } :=
  c9_reset_history_unconditional svcOkW 0 stPriorW "hi".toList replyConvW []
    (PyVal.dict [("user_request".toList, PyVal.str "Conversation".toList),
                 ("output".toList, PyVal.str "done".toList)])
    rfl rfl

theorem execLoop_results (svc : ToolService) :
    ∀ cs : List (List Char),
      (SuperMCPCommandParser.execLoop svc cs).1 =
        cs.map (fun c => (SuperMCPCommandParser.parse_and_execute_command svc c).1)
  | [] => rfl
  | c :: cs => by
    simp [SuperMCPCommandParser.execLoop, execLoop_results svc cs]

theorem startsWith_head (a : Char) (p : List Char) :
    ∀ s, Py.startsWith (a :: p) s = true → ∃ cs, s = a :: cs
  | [], h => by simp [Py.startsWith] at h
  | c :: cs, h => by
    simp only [Py.startsWith, Bool.and_eq_true, decide_eq_true_eq] at h
    exact ⟨cs, by rw [h.1]⟩

/-- C7: every cleaned segment of a command sequence contributes exactly
one positional result and the aggregate always reports `success: true`
(so `success: false` could only come from an exception outside the
per-command dispatch, which the dispatch structure never produces); an
unknown command prefix yields the `Unknown command` error object
without touching the service; and a service exception during any of the
four dispatch forms is converted into that segment's error object. -/
theorem c7_per_command_errors (svc : ToolService) (e : List Char) :
    (∀ seq : List Char,
      (SuperMCPCommandParser.execute_command_sequence svc seq).1 =
        PyVal.dict [("success".toList, PyVal.bool true),
          ("results".toList, PyVal.list ((SuperMCPCommandParser.cleanCommands seq).map
            (fun c => (SuperMCPCommandParser.parse_and_execute_command svc c).1)))]) ∧
    (∀ cmd : List Char,
      ¬ cmd = "reload_servers()".toList → ¬ cmd = "list_servers()".toList →
      Py.startsWith "inspect_server(".toList cmd = false →
      Py.startsWith "call_server_tool(".toList cmd = false →
      SuperMCPCommandParser.parse_and_execute_command svc cmd =
        (errObj ("Unknown command: ".toList ++ cmd), [])) ∧
    (svc ToolCall.reload_servers = Except.error e →
      SuperMCPCommandParser.parse_and_execute_command svc "reload_servers()".toList =
        (errObj ("Command execution failed: ".toList ++ e), [ToolCall.reload_servers])) ∧
    (svc ToolCall.list_servers = Except.error e →
      SuperMCPCommandParser.parse_and_execute_command svc "list_servers()".toList =
        (errObj ("Command execution failed: ".toList ++ e), [ToolCall.list_servers])) ∧
    (∀ cmd : List Char, Py.startsWith "inspect_server(".toList cmd = true →
      svc (ToolCall.inspect_server ((cmd.drop 16).dropLast)) = Except.error e →
      SuperMCPCommandParser.parse_and_execute_command svc cmd =
        (errObj ("Command execution failed: ".toList ++ e),
         [ToolCall.inspect_server ((cmd.drop 16).dropLast)])) ∧
    (∀ (cmd s t u : List Char) (us : List (List Char)),
      Py.startsWith "call_server_tool(".toList cmd = true →
      SuperMCPCommandParser.parse_command_arguments ((cmd.drop 17).dropLast) =
        s :: t :: u :: us →
      svc (ToolCall.call_server_tool s t []) = Except.error e →
      SuperMCPCommandParser.parse_and_execute_command svc cmd =
        (errObj ("Failed to parse call_server_tool: ".toList ++ e),
         [ToolCall.call_server_tool s t []])) := by
  refine ⟨?_, ?_, ?_, ?_, ?_, ?_⟩
  · intro seq
    simp [SuperMCPCommandParser.execute_command_sequence, execLoop_results]
  · intro cmd h1 h2 h3 h4
    simp at h1 h2 h3 h4
    simp [SuperMCPCommandParser.parse_and_execute_command, h1, h2, h3, h4]
  · intro hsvc
    simp [SuperMCPCommandParser.parse_and_execute_command, hsvc]
  · intro hsvc
    simp [SuperMCPCommandParser.parse_and_execute_command, hsvc]
  · intro cmd hsw hsvc
    have hne1 : ¬ cmd = "reload_servers()".toList := by
      rintro rfl; exact absurd hsw (by decide)
    have hne2 : ¬ cmd = "list_servers()".toList := by
      rintro rfl; exact absurd hsw (by decide)
    simp at hne1 hne2 hsw
    simp [SuperMCPCommandParser.parse_and_execute_command, hne1, hne2, hsw, hsvc]
  · intro cmd s t u us hsw hparts hsvc
    obtain ⟨cs, rfl⟩ := startsWith_head 'c' _ cmd hsw
    have hni : Py.startsWith "inspect_server(".toList ('c' :: cs) = false := by
      rw [show "inspect_server(".toList = 'i' :: "nspect_server(".toList from rfl]
      simp [Py.startsWith]
    simp at hni hsw hparts
    simp [SuperMCPCommandParser.parse_and_execute_command, hni, hsw, hparts, hsvc]

theorem c7_per_command_errors_witness :
    SuperMCPCommandParser.parse_and_execute_command svcErrW "bogus()".toList =
      (errObj ("Unknown command: ".toList ++ "bogus()".toList), []) ∧
    SuperMCPCommandParser.parse_and_execute_command svcErrW "reload_servers()".toList =
      (errObj ("Command execution failed: ".toList ++ "boom".toList),
       [ToolCall.reload_servers]) :=
  ⟨(c7_per_command_errors svcErrW "boom".toList).2.1 "bogus()".toList
      (by decide) (by decide) (by decide) (by decide),
   (c7_per_command_errors svcErrW "boom".toList).2.2.1 rfl⟩

theorem llm_ask_appends_users (replies : List (List Char)) :
    ∀ (st : LLMState) (prompt : List Char) (v : PyVal) (st1 : LLMState)
      (rs : List (List Char)),
      LLM.ask st prompt replies = Option.some (v, st1, rs) →
      st1.default_chat = st.default_chat ∧
      ∃ suf : List Message, st1.chat_history = st.chat_history ++ suf ∧
        ∀ m ∈ suf, m.role = "user".toList := by
  induction replies with
  | nil =>
    intro st prompt v st1 rs h
    simp [LLM.ask] at h
  | cons r rest ih =>
    intro st prompt v st1 rs h
    simp only [LLM.ask] at h
    cases hj : json_loads r with
    | some v0 =>
      rw [hj] at h
      simp only [Option.some.injEq, Prod.mk.injEq] at h
      obtain ⟨-, h2, -⟩ := h
      subst h2
      refine ⟨rfl, [userMsg prompt], rfl, ?_⟩
      intro m hm
      simp only [List.mem_singleton] at hm
      subst hm; rfl
    | none =>
      rw [hj] at h
      obtain ⟨hd, suf, hsuf, hroles⟩ := ih (pushUser st prompt) correctiveMessage v st1 rs h
      refine ⟨hd, userMsg prompt :: suf, ?_, ?_⟩
      · rw [hsuf]; simp [pushUser]
      · intro m hm
        rcases List.mem_cons.mp hm with rfl | hm
        · rfl
        · exact hroles m hm

theorem askLoop_state_spec (svc : ToolService) :
    ∀ (fuel : Nat) (response : PyVal) (st : LLMState) (replies : List (List Char))
      (calls : List (List Char)) (run : Jarvis.AskRun),
      Jarvis.askLoop svc fuel response st replies calls = Option.some run →
      run.state = { default_chat := st.default_chat, chat_history := st.default_chat } ∧
      ∃ suf : List Message, run.exit_history = st.chat_history ++ suf ∧
        ∀ m ∈ suf, m.role = "user".toList := by
  intro fuel
  induction fuel with
  | zero =>
    intro response st replies calls run h
    simp [Jarvis.askLoop] at h
  | succ fuel ih =>
    intro response st replies calls run h
    rw [Jarvis.askLoop] at h
    cases hg : pyGet response "user_request".toList with
    | none => simp only [hg] at h; exact absurd h (by simp)
    | some ur =>
      simp only [hg] at h
      by_cases hc : ur.eqStr "Conversation".toList = true
      · rw [if_pos hc] at h
        have hrun := Option.some.inj h
        subst hrun
        exact ⟨rfl, [], (List.append_nil _).symm, by intro m hm; cases hm⟩
      · rw [if_neg hc] at h
        by_cases hs : ur.eqStr "SuperMCP".toList = true
        · rw [if_pos hs] at h
          cases ho : pyGet response "output".toList with
          | none => simp only [ho] at h; exact absurd h (by simp)
          | some out =>
            simp only [ho] at h
            cases out with
            | none => exact absurd h (by simp)
            | bool b => exact absurd h (by simp)
            | int i => exact absurd h (by simp)
            | list xs => exact absurd h (by simp)
            | dict kvs => exact absurd h (by simp)
            | str cmd =>
              cases hla : LLM.ask st
                  (json_dumps (Jarvis.execute_supermcp_commands svc cmd).1) replies with
              | none => simp only [hla] at h; exact absurd h (by simp)
              | some trip =>
                obtain ⟨v, st2, rs⟩ := trip
                simp only [hla] at h
                obtain ⟨hstate, suf2, hsuf2, hr2⟩ := ih v st2 rs (calls ++ [cmd]) run h
                obtain ⟨hd, suf1, hsuf1, hr1⟩ :=
                  llm_ask_appends_users replies st _ v st2 rs hla
                refine ⟨by rw [hstate, hd], suf1 ++ suf2, ?_, ?_⟩
                · rw [hsuf2, hsuf1, List.append_assoc]
                · intro m hm
                  rcases List.mem_append.mp hm with h1 | h1
                  · exact hr1 m h1
                  · exact hr2 m h1
        · rw [if_neg hs] at h
          exact ih response st replies calls run h

/-- C10: every message `ask()` adds to the chat session — the original
prompt, serialized tool results, corrective-retry instructions — has
role `user`; the model's replies are never recorded.  Hence the history
at loop exit is the entry history followed by user-role messages only,
and after the unconditional reset the stored session is exactly the
system-only `default_chat`. -/
theorem c10_session_only_user_appends (svc : ToolService) (fuel : Nat) (st : LLMState)
    (prompt : List Char) (replies : List (List Char)) (run : Jarvis.AskRun)
    (h : Jarvis.ask svc fuel st prompt replies = Option.some run) :
    run.exit_history.take st.chat_history.length = st.chat_history ∧
    (run.exit_history.drop st.chat_history.length).all
      (fun m => m.role == "user".toList) = true ∧
    run.state.chat_history = st.default_chat := by
  rw [Jarvis.ask] at h
  cases hla : LLM.ask st prompt replies with
  | none => simp only [hla] at h; exact absurd h (by simp)
  | some trip =>
    obtain ⟨v, st1, rs⟩ := trip
    simp only [hla] at h
    obtain ⟨hstate, suf2, hsuf2, hr2⟩ := askLoop_state_spec svc fuel v st1 rs [] run h
    obtain ⟨hd, suf1, hsuf1, hr1⟩ := llm_ask_appends_users replies st prompt v st1 rs hla
    have hex : run.exit_history = st.chat_history ++ (suf1 ++ suf2) := by
      rw [hsuf2, hsuf1, List.append_assoc]
    refine ⟨?_, ?_, ?_⟩
    · rw [hex, List.take_left]
    · rw [hex, List.drop_left, List.all_eq_true]
      intro m hm
      rcases List.mem_append.mp hm with h1 | h1
      · exact beq_iff_eq.mpr (hr1 m h1)
      · exact beq_iff_eq.mpr (hr2 m h1)
    · rw [hstate, hd]

theorem c10_session_only_user_appends_witness :
    (({ response := PyVal.dict [("user_request".toList, PyVal.str "Conversation".toList),
                                ("output".toList, PyVal.str "done".toList)]
        exit_history := [sysMsgW, userMsg "hi".toList]
        state := { default_chat := [sysMsgW], chat_history := [sysMsgW] }
        remaining := []
        parser_calls := [] } : Jarvis.AskRun).exit_history.take
          stW.chat_history.length = stW.chat_history) ∧
    ((({ response := PyVal.dict [("user_request".toList, PyVal.str "Conversation".toList),
                                 ("output".toList, PyVal.str "done".toList)]
         exit_history := [sysMsgW, userMsg "hi".toList]
         state := { default_chat := [sysMsgW], chat_history := [sysMsgW] }
         remaining := []
         parser_calls := [] } : Jarvis.AskRun).exit_history.drop
          stW.chat_history.length).all (fun m => m.role == "user".toList) = true) ∧
    ({ response := PyVal.dict [("user_request".toList, PyVal.str "Conversation".toList),
                               ("output".toList, PyVal.str "done".toList)]
       exit_history := [sysMsgW, userMsg "hi".toList]
       state := { default_chat := [sysMsgW], chat_history := [sysMsgW] }
       remaining := []
       parser_calls := [] } : Jarvis.AskRun).state.chat_history = stW.default_chat :=
  c10_session_only_user_appends svcOkW 1 stW "hi".toList [replyConvW] _ (by rfl)

theorem specTopLevelSplit_ne_nil : ∀ (s : List Char) (d : Int), specTopLevelSplit s d ≠ []
  | [], d => by simp [specTopLevelSplit]
  | c :: rest, d => by
    simp only [specTopLevelSplit]
    by_cases hc : c = ',' ∧ d = 0
    · simp [hc]
    · rw [if_neg hc]
      cases hs : specTopLevelSplit rest
          (if c = '\x7b' then d + 1 else if c = '\x7d' then d - 1 else d) <;> simp

theorem dropTrailingEmptyArg_cons (x : List Char) (raws : List (List Char))
    (h : raws ≠ []) :
    dropTrailingEmptyArg (x :: raws) = x :: dropTrailingEmptyArg raws := by
  rcases raws with _ | ⟨y, ys⟩
  · exact absurd rfl h
  · simp only [dropTrailingEmptyArg, List.getLast?_cons_cons, List.dropLast]
    split <;> rfl

theorem pca_foldl_spec :
    ∀ (content : List Char) (parts : List (List Char)) (cur : List Char) (depth : Int),
      (match content.foldl SuperMCPCommandParser.pcaStep (parts, cur, depth) with
        | (ps, c, _) => if c ≠ [] then ps ++ [Py.strip c] else ps) =
      parts ++ (dropTrailingEmptyArg
        ((cur ++ (specTopLevelSplit content depth).headI) ::
          (specTopLevelSplit content depth).tail)).map Py.strip
  | [], parts, cur, depth => by
    simp only [List.foldl_nil, specTopLevelSplit, List.headI, List.tail, List.append_nil]
    by_cases hcur : cur = []
    · subst hcur
      simp [dropTrailingEmptyArg]
    · simp [dropTrailingEmptyArg, hcur]
  | c :: rest, parts, cur, depth => by
    rw [List.foldl_cons]
    by_cases hcomma : c = ',' ∧ depth = 0
    · have hstep : SuperMCPCommandParser.pcaStep (parts, cur, depth) c =
          (parts ++ [Py.strip cur], [], depth) := by
        obtain ⟨rfl, rfl⟩ := hcomma
        simp [SuperMCPCommandParser.pcaStep]
      rw [hstep, pca_foldl_spec rest (parts ++ [Py.strip cur]) [] depth]
      have hsplit : specTopLevelSplit (c :: rest) depth =
          [] :: specTopLevelSplit rest depth := by
        simp [specTopLevelSplit, hcomma]
      rw [hsplit]
      cases hs : specTopLevelSplit rest depth with
      | nil => exact absurd hs (specTopLevelSplit_ne_nil rest depth)
      | cons seg segs =>
        simp only [List.headI, List.tail, List.nil_append, List.append_nil]
        rw [dropTrailingEmptyArg_cons cur (seg :: segs) (by simp)]
        simp
    · have hne : specTopLevelSplit (c :: rest) depth =
          match specTopLevelSplit rest
              (if c = '\x7b' then depth + 1 else if c = '\x7d' then depth - 1 else depth) with
          | [] => [[c]]
          | seg :: segs => (c :: seg) :: segs := by
        simp [specTopLevelSplit, hcomma]
      have hstep : SuperMCPCommandParser.pcaStep (parts, cur, depth) c =
          (parts, cur ++ [c],
           if c = '\x7b' then depth + 1 else if c = '\x7d' then depth - 1 else depth) := by
        by_cases h1 : c = '\x7b'
        · simp [SuperMCPCommandParser.pcaStep, h1]
        · by_cases h2 : c = '\x7d'
          · simp [SuperMCPCommandParser.pcaStep, h1, h2]
          · simp [SuperMCPCommandParser.pcaStep, h1, h2, hcomma]
      rw [hstep, pca_foldl_spec rest parts (cur ++ [c])
          (if c = '\x7b' then depth + 1 else if c = '\x7d' then depth - 1 else depth)]
      rw [hne]
      cases hs : specTopLevelSplit rest
          (if c = '\x7b' then depth + 1 else if c = '\x7d' then depth - 1 else depth) with
      | nil => exact absurd hs (specTopLevelSplit_ne_nil rest _)
      | cons seg segs =>
        simp only [List.headI, List.tail, List.append_assoc, List.singleton_append]

/-- C5: the argument splitter agrees everywhere with the reference
splitter that divides its input exactly at the commas whose running
brace depth is zero (modulo the stripping of each part and the dropped
trailing empty raw part); in particular
`call_server_tool(Foo, bar, {a: 1, b: 2})` yields exactly the three
top-level arguments `Foo`, `bar` and the whole brace span, and the
dispatcher therefore invokes the tool with server `Foo` and tool
`bar`. -/
theorem c5_brace_depth_split :
    (∀ content : List Char,
      SuperMCPCommandParser.parse_command_arguments content =
        (dropTrailingEmptyArg (specTopLevelSplit content 0)).map Py.strip) ∧
    SuperMCPCommandParser.parse_command_arguments "Foo, bar, \x7ba: 1, b: 2\x7d".toList =
      ["Foo".toList, "bar".toList, "\x7ba: 1, b: 2\x7d".toList] ∧
    (SuperMCPCommandParser.parse_and_execute_command svcOkW
        "call_server_tool(Foo, bar, \x7ba: 1, b: 2\x7d)".toList).2 =
      [ToolCall.call_server_tool "Foo".toList "bar".toList []] := by
  refine ⟨fun content => ?_, by rfl, by rfl⟩
  have h := pca_foldl_spec content [] [] 0
  cases hs : specTopLevelSplit content 0 with
  | nil => exact absurd hs (specTopLevelSplit_ne_nil content 0)
  | cons seg segs =>
    rw [hs] at h
    simp only [List.headI, List.tail, List.nil_append] at h
    exact h

theorem containsSeq_nil (w : List Char) (hw : w ≠ []) :
    Py.containsSeq w [] = false := by
  rcases w with _ | ⟨a, as⟩
  · exact absurd rfl hw
  · rfl

theorem listenStep_cases (st : VAState) (ev : TranscriptEv)
    (hw : ∀ w ∈ st.wake_words, w ≠ []) :
    (listenStep st ev = (st, Option.none) ∧
      (eventMatches st.wake_words ev → ev.time < st.last_detection_time + 2)) ∨
    (∃ a : Activation, a.timestamp = ev.time ∧ st.last_detection_time + 2 ≤ ev.time ∧
      listenStep st ev =
        ({ st with last_detection_time := ev.time,
                   detection_count := st.detection_count + 1 }, Option.some a)) := by
  simp only [listenStep]
  by_cases h0 : Py.strip (Py.lower ev.text) = []
  · left
    rw [if_pos h0]
    refine ⟨rfl, ?_⟩
    intro hm
    obtain ⟨w, hwmem, hcont⟩ := hm
    rw [h0, containsSeq_nil w (hw w hwmem)] at hcont
    exact absurd hcont (by simp)
  · rw [if_neg h0]
    simp only [check_for_wake_word]
    by_cases hdeb : ev.time - st.last_detection_time < 2
    · left
      rw [if_pos hdeb]
      exact ⟨rfl, fun _ => by linarith⟩
    · rw [if_neg hdeb]
      cases hf : st.wake_words.find?
          (fun w => Py.containsSeq w (Py.strip (Py.lower ev.text))) with
      | none =>
        left
        refine ⟨rfl, ?_⟩
        intro hm
        obtain ⟨w, hwmem, hcont⟩ := hm
        exact absurd hcont (List.find?_eq_none.mp hf w hwmem)
      | some w =>
        right
        exact ⟨_, rfl, by linarith, rfl⟩

theorem processEvents_props :
    ∀ (events : List TranscriptEv) (st : VAState),
      (∀ w ∈ st.wake_words, w ≠ []) →
      List.Pairwise (fun a b : TranscriptEv => a.time ≤ b.time) events →
      (∀ a ∈ (processEvents st events).2, st.last_detection_time + 2 ≤ a.timestamp) ∧
      List.Pairwise (fun a b : Activation => a.timestamp + 2 ≤ b.timestamp)
        (processEvents st events).2 ∧
      (∀ e ∈ events, eventMatches st.wake_words e →
        e.time < st.last_detection_time + 2 ∨
        ∃ a ∈ (processEvents st events).2, a.timestamp ≤ e.time ∧ e.time < a.timestamp + 2)
  | [], st, hw, hsort => by simp [processEvents]
  | e :: es, st, hw, hsort => by
    have hsortTail : List.Pairwise (fun a b : TranscriptEv => a.time ≤ b.time) es :=
      (List.pairwise_cons.mp hsort).2
    have hsortHead : ∀ b ∈ es, e.time ≤ b.time := (List.pairwise_cons.mp hsort).1
    rcases listenStep_cases st e hw with ⟨hstep, hrej⟩ | ⟨a, hts, hacc, hstep⟩
    · obtain ⟨p1, p2, p3⟩ := processEvents_props es st hw hsortTail
      simp only [processEvents, hstep, Option.toList_none, List.nil_append]
      refine ⟨p1, p2, ?_⟩
      intro e1 he1 hm
      rcases List.mem_cons.mp he1 with rfl | he1
      · exact Or.inl (hrej hm)
      · exact p3 e1 he1 hm
    · obtain ⟨p1, p2, p3⟩ := processEvents_props es
        { st with last_detection_time := e.time,
                  detection_count := st.detection_count + 1 } hw hsortTail
      simp only [processEvents, hstep, Option.toList_some, List.singleton_append]
      refine ⟨?_, ?_, ?_⟩
      · intro b hb
        rcases List.mem_cons.mp hb with rfl | hb
        · rw [hts]; exact hacc
        · have := p1 b hb
          simp only at this
          linarith
      · refine List.pairwise_cons.mpr ⟨?_, p2⟩
        intro b hb
        have := p1 b hb
        simp only at this
        rw [hts]
        linarith
      · intro e1 he1 hm
        rcases List.mem_cons.mp he1 with rfl | he1
        · refine Or.inr ⟨a, List.mem_cons_self a _, by rw [hts], by rw [hts]; linarith⟩
        · rcases p3 e1 he1 hm with hlt | ⟨b, hb, hb1, hb2⟩
          · simp only at hlt
            refine Or.inr ⟨a, List.mem_cons_self a _, ?_, ?_⟩
            · rw [hts]; exact hsortHead e1 he1
            · rw [hts]; linarith
          · exact Or.inr ⟨b, List.mem_cons_of_mem a hb, hb1, hb2⟩

/-- C4: over any chronologically ordered event stream starting outside
any previous debounce window, with non-empty configured phrases:
(a) consecutive accepted activations are at least 2.0 s apart (no
second activation inside the debounce window); (b) every event whose
lower-cased text contains a configured phrase is covered by an
activation fired within the 2.0 s window containing it; and (c) that
covering activation is unique — so each matching event sees exactly one
activation in its debounce window, however many events match. -/
theorem c4_wake_word_debounce (st : VAState) (events : List TranscriptEv)
    (hw : ∀ w ∈ st.wake_words, w ≠ [])
    (hsort : List.Pairwise (fun a b : TranscriptEv => a.time ≤ b.time) events)
    (hstart : ∀ e ∈ events, st.last_detection_time + 2 ≤ e.time) :
    List.Pairwise (fun a b : Activation => a.timestamp + 2 ≤ b.timestamp)
      (processEvents st events).2 ∧
    (∀ e ∈ events, eventMatches st.wake_words e →
      ∃ a ∈ (processEvents st events).2, a.timestamp ≤ e.time ∧ e.time < a.timestamp + 2) ∧
    (∀ e ∈ events, ∀ a ∈ (processEvents st events).2, ∀ b ∈ (processEvents st events).2,
      a.timestamp ≤ e.time → e.time < a.timestamp + 2 →
      b.timestamp ≤ e.time → e.time < b.timestamp + 2 → a = b) := by
  obtain ⟨p1, p2, p3⟩ := processEvents_props events st hw hsort
  refine ⟨p2, ?_, ?_⟩
  · intro e he hm
    rcases p3 e he hm with hlt | hcov
    · exact absurd hlt (by have := hstart e he; linarith)
    · exact hcov
  · intro e he a ha b hb h1 h2 h3 h4
    by_contra hne
    have hsym : Symmetric (fun x y : Activation =>
        x.timestamp + 2 ≤ y.timestamp ∨ y.timestamp + 2 ≤ x.timestamp) :=
      fun x y h => h.symm
    have hp : (processEvents st events).2.Pairwise (fun x y : Activation =>
        x.timestamp + 2 ≤ y.timestamp ∨ y.timestamp + 2 ≤ x.timestamp) :=
      p2.imp Or.inl
    rcases List.Pairwise.forall hsym hp ha hb hne with h | h <;> linarith

theorem c4_wake_word_debounce_witness :
    List.Pairwise (fun a b : Activation => a.timestamp + 2 ≤ b.timestamp)
      (processEvents vaInitW evsW).2 ∧
    (∀ e ∈ evsW, eventMatches vaInitW.wake_words e →
      ∃ a ∈ (processEvents vaInitW evsW).2,
        a.timestamp ≤ e.time ∧ e.time < a.timestamp + 2) ∧
    (∀ e ∈ evsW, ∀ a ∈ (processEvents vaInitW evsW).2,
      ∀ b ∈ (processEvents vaInitW evsW).2,
      a.timestamp ≤ e.time → e.time < a.timestamp + 2 →
      b.timestamp ≤ e.time → e.time < b.timestamp + 2 → a = b) :=
  c4_wake_word_debounce vaInitW evsW
    (by decide)
    (by norm_num [evsW, List.pairwise_cons])
    (by intro e he
        simp only [evsW] at he
        fin_cases he <;> norm_num [vaInitW, VAState.init])
